import Mathlib

/-!
Shallow embedding of the threat-event extraction pipeline (src/main.py).

The program fetches time-windowed event records from a paginated GraphQL
API, deduplicates records across pages by their identifier, normalizes each
record into a flat 45-column row, and hands the accumulated batches to a
CSV sink.  We model:

  * JSON values (`Json`) and the Python dictionary/attribute access
    semantics the code relies on (`pyGet` for `dict.get(k, default)`,
    `dictGetItem` for `d[k]`, truthiness, iteration);
  * `process_data` (dedup + normalization, src/main.py lines 155-184),
    with Python exceptions modelled as `Except` values; since the shared
    `seen_ids` set is mutated in place, the error case carries the set as
    mutated up to the point of failure;
  * `fetch_data` (lines 124-152) over an abstract transport delivering the
    final HTTP status and the parsed body (or `none` for an unparseable
    body); `requests.Response.raise_for_status` raises exactly for
    statuses in [400, 600);
  * the orchestration loop of `main` (lines 208-242): batches of 10
    submitted fetches, drained with per-future exception handling, the
    short-page termination flag, and the accumulated `all_data` batches.
-/

mutual
inductive Json where
  | null
  | bool (b : Bool)
  | num (n : Int)
  | str (s : String)
  | arr (elems : JsonList)
  | obj (fields : JsonFields)
  deriving DecidableEq
inductive JsonList where
  | nil
  | cons (hd : Json) (tl : JsonList)
  deriving DecidableEq
inductive JsonFields where
  | nil
  | cons (k : String) (v : Json) (tl : JsonFields)
  deriving DecidableEq
end

/-- The elements of a JSON array, as a Lean list. -/
def JsonList.toList : JsonList → List Json
  | .nil => []
  | .cons x xs => x :: xs.toList

/-- Build a JSON array payload from a Lean list. -/
def JsonList.ofList : List Json → JsonList
  | [] => .nil
  | x :: xs => .cons x (JsonList.ofList xs)

/-- The bindings of a JSON object, as a Lean association list. -/
def JsonFields.toList : JsonFields → List (String × Json)
  | .nil => []
  | .cons k v fs => (k, v) :: fs.toList

/-- Build a JSON object payload from a Lean association list. -/
def JsonFields.ofList : List (String × Json) → JsonFields
  | [] => .nil
  | (k, v) :: fs => .cons k v (JsonFields.ofList fs)

/-- A JSON array from a Lean list. -/
def Json.mkArr (xs : List Json) : Json := .arr (JsonList.ofList xs)

/-- A JSON object from a Lean association list. -/
def Json.mkObj (fs : List (String × Json)) : Json := .obj (JsonFields.ofList fs)

/-- Python exceptions that the modelled code can raise. -/
inductive PyErr where
  | keyError (k : String)
  | typeError
  | attributeError
  | valueError
  | httpError (status : Nat)
  | jsonDecodeError
  | netError
  deriving DecidableEq

instance {ε α : Type} [DecidableEq ε] [DecidableEq α] : DecidableEq (Except ε α) := fun a b =>
  match a, b with
  | .ok x, .ok y => if h : x = y then .isTrue (by rw [h]) else .isFalse (by intro hc; cases hc; exact h rfl)
  | .error x, .error y => if h : x = y then .isTrue (by rw [h]) else .isFalse (by intro hc; cases hc; exact h rfl)
  | .ok _, .error _ => .isFalse (by intro hc; cases hc)
  | .error _, .ok _ => .isFalse (by intro hc; cases hc)

/-- First binding of a key in a JSON object (Python dicts have unique
keys, so first-match lookup is an adequate model). -/
def lookupField : JsonFields → String → Option Json
  | .nil, _ => none
  | .cons k v rest, key => if k = key then some v else lookupField rest key

/-- Python `x.get(key, default)`: only dictionaries have a `get` method;
on any other value an `AttributeError` is raised. -/
def pyGet (j : Json) (key : String) (dflt : Json) : Except PyErr Json :=
  match j with
  | .obj fs => .ok ((lookupField fs key).getD dflt)
  | _ => .error .attributeError

/-- Python `x[key]` for a string key: a dictionary either yields the value
or raises `KeyError`; subscripting any other value raises `TypeError`. -/
def dictGetItem (j : Json) (key : String) : Except PyErr Json :=
  match j with
  | .obj fs =>
    match lookupField fs key with
    | some v => .ok v
    | none => .error (.keyError key)
  | _ => .error .typeError

/-- Python truthiness of a JSON value (`if record['SERVICE']`). -/
def Json.isTruthy : Json → Bool
  | .null => false
  | .bool b => b
  | .num n => n ≠ 0
  | .str s => s ≠ ""
  | .arr .nil => false
  | .arr (.cons _ _) => true
  | .obj .nil => false
  | .obj (.cons _ _ _) => true

/-- Numeric value used by `record['timestamp'] / 1000`: dividing a
non-number raises `TypeError` (Python booleans are integers). -/
def Json.toMillis : Json → Except PyErr Int
  | .num n => .ok n
  | .bool b => .ok (if b then 1 else 0)
  | _ => .error .typeError

/-- Python `for record in data`: lists yield elements, dictionaries yield
their keys, strings yield one-character strings; other values raise
`TypeError`. -/
def iterElems : Json → Except PyErr (List Json)
  | .arr xs => .ok xs.toList
  | .obj fs => .ok (fs.toList.map (fun kv => Json.str kv.1))
  | .str s => .ok (s.toList.map (fun c => Json.str (String.singleton c)))
  | _ => .error .typeError

/-- Left-pad a decimal rendering with zeros to a given width. -/
def padTo (w : Nat) (n : Nat) : String :=
  let s := toString n
  String.mk (List.replicate (w - s.length) '0') ++ s

/-- Gregorian civil date from days since the Unix epoch
(year, month, day). -/
def civilFromDays (z0 : Int) : Int × Nat × Nat :=
  let z := z0 + 719468
  let era := Int.fdiv z 146097
  let doe := (z - era * 146097).toNat
  let yoe := (doe - doe / 1460 + doe / 36524 - doe / 146096) / 365
  let y : Int := (yoe : Int) + era * 400
  let doy := doe - (365 * yoe + yoe / 4 - yoe / 100)
  let mp := (5 * doy + 2) / 153
  let d := doy - (153 * mp + 2) / 5 + 1
  let m := if mp < 10 then mp + 3 else mp - 9
  (if m ≤ 2 then y + 1 else y, m, d)

/-- `datetime.utcfromtimestamp(ms / 1000).isoformat()`: ISO-8601 rendering
of an epoch-milliseconds value; `datetime` raises when the year leaves the
range 1..9999, and `isoformat` appends the microseconds only when they are
non-zero. -/
def utcIsoOfMillis (ms : Int) : Except PyErr String :=
  let secs := Int.fdiv ms 1000
  let milli := (Int.emod ms 1000).toNat
  let days := Int.fdiv secs 86400
  let sod := (Int.emod secs 86400).toNat
  match civilFromDays days with
  | (y, m, d) =>
    if y < 1 ∨ 9999 < y then .error .valueError
    else .ok (padTo 4 y.toNat ++ "-" ++ padTo 2 m ++ "-" ++ padTo 2 d ++ "T" ++
      padTo 2 (sod / 3600) ++ ":" ++ padTo 2 (sod % 3600 / 60) ++ ":" ++ padTo 2 (sod % 60) ++
      (if milli = 0 then "" else "." ++ padTo 6 (milli * 1000)))

example : utcIsoOfMillis 0 = .ok "1970-01-01T00:00:00" := by decide

/-- The 34 scalar attribute keys read after `id`, `name` and the converted
timestamp, in the order of the row literal of src/main.py lines 162-172. -/
def scalarKeys : List String :=
  ["type", "environment", "spanId", "apiId", "apiName", "apiUri", "category",
   "serviceId", "serviceName", "eventDescription", "actorEntityId", "actorName",
   "actorIpAddress", "actorDevice", "actorSession", "securityScore",
   "securityScoreCategory", "securityEventCategory", "threatCategory",
   "securityEventTypeId", "spanStartTimestamp", "actorCountry", "actorState",
   "actorCity", "eventImpactLevel", "eventConfidenceLevel", "ipCategories",
   "ipReputationLevel", "ipConnectionType", "ipAsn", "ipOrganisation", "traceId",
   "anomalousAttribute", "scannerType"]

/-- Subscript a record with each key in turn, left to right, propagating the
first exception (each `record[k]` of the row literal). -/
def getItems (record : Json) : List String → Except PyErr (List Json)
  | [] => .ok []
  | k :: ks => do
    let v ← dictGetItem record k
    let vs ← getItems record ks
    .ok (v :: vs)

/-- One row entry `record['SERVICE'][k] if record['SERVICE'] else None`
(src/main.py lines 173-174). -/
def svcField (record : Json) (k : String) : Except PyErr Json := do
  let svc ← dictGetItem record "SERVICE"
  if svc.isTruthy then dictGetItem svc k else .ok .null

/-- One row entry `record['API'][k] if record['API'] else None`
(src/main.py lines 175-180). -/
def apiField (record : Json) (k : String) : Except PyErr Json := do
  let api ← dictGetItem record "API"
  if api.isTruthy then dictGetItem api k else .ok .null

/-- The eight sub-entity-derived row entries, positions 38-45 of the row:
SERVICE id and name, then API id, name, isAuthenticated, hasPii,
changeLabel and changeLabelTimestamp. -/
def subEntityFields (record : Json) : Except PyErr (List Json) := do
  let a ← svcField record "id"
  let b ← svcField record "name"
  let c ← apiField record "id"
  let d ← apiField record "name"
  let e ← apiField record "isAuthenticated"
  let f ← apiField record "hasPii"
  let g ← apiField record "changeLabel"
  let h ← apiField record "changeLabelTimestamp"
  .ok [a, b, c, d, e, f, g, h]

/-- Normalization of one record into the 45-column row (src/main.py lines
160-181).  The timestamp conversion of line 161 runs first, then the row
literal is evaluated left to right: id, name, the converted timestamp, the
34 further scalar attributes, and the eight sub-entity entries.  Any missing
key or ill-typed timestamp raises, aborting the record. -/
def normalizeRow (record : Json) : Except PyErr (List Json) := do
  let tsRaw ← dictGetItem record "timestamp"
  let ms ← tsRaw.toMillis
  let iso ← utcIsoOfMillis ms
  let idv ← dictGetItem record "id"
  let namev ← dictGetItem record "name"
  let scalars ← getItems record scalarKeys
  let subs ← subEntityFields record
  .ok (idv :: namev :: Json.str (iso ++ "Z") :: (scalars ++ subs))

/-- The record loop of `process_data` (src/main.py lines 158-183).  The
Python code mutates the shared `seen_ids` set in place, so an exception
propagates with all insertions made before the failing record; we model
this by returning the evolved set in the error case as well.  A record
whose id is already in the set is skipped without being normalized; an
accepted record is appended to the output and its id inserted. -/
def processRecords : List Json → Finset Json →
    Except (PyErr × Finset Json) (List (List Json) × Finset Json)
  | [], seen => .ok ([], seen)
  | record :: rest, seen =>
    match dictGetItem record "id" with
    | .error e => .error (e, seen)
    | .ok rid =>
      if rid ∈ seen then processRecords rest seen
      else
        match normalizeRow record with
        | .error e => .error (e, seen)
        | .ok row =>
          match processRecords rest (insert rid seen) with
          | .error es => .error es
          | .ok (rows, seen') => .ok (row :: rows, seen')

/-- The envelope unwrapping of `process_data` (src/main.py line 156):
`result.get('data', {}).get('events', {}).get('results', [])`, followed by
Python iteration over the result. -/
def extractRecords (result : Json) : Except PyErr (List Json) := do
  let d1 ← pyGet result "data" (Json.mkObj [])
  let d2 ← pyGet d1 "events" (Json.mkObj [])
  let d3 ← pyGet d2 "results" (Json.mkArr [])
  iterElems d3

/-- `process_data(result, seen_ids)` (src/main.py lines 155-184): unwrap the
envelope, then run the dedup/normalize loop.  Returns the accepted rows in
input order together with the updated seen-id set, or the exception paired
with the set as mutated up to the failure. -/
def process_data (result : Json) (seen : Finset Json) :
    Except (PyErr × Finset Json) (List (List Json) × Finset Json) :=
  match extractRecords result with
  | .error e => .error (e, seen)
  | .ok records => processRecords records seen

/-- What the network hands back for one offset: either a transport-level
failure, or the final HTTP status code together with the parsed JSON body
(`none` when the body is not valid JSON). -/
inductive HttpOutcome where
  | resp (status : Nat) (body : Option Json)
  | netErr

/-- `fetch_data` (src/main.py lines 124-152) over an abstract transport:
a network error raises; `response.raise_for_status()` raises exactly for
status codes in [400, 600); otherwise `response.json()` returns the parsed
body or raises if the body is not valid JSON. -/
def fetch_data (transport : Nat → HttpOutcome) (offset : Nat) : Except PyErr Json :=
  match transport offset with
  | .netErr => .error .netError
  | .resp status body =>
    if 400 ≤ status ∧ status < 600 then .error (.httpError status)
    else
      match body with
      | some j => .ok j
      | none => .error .jsonDecodeError

/-- The orchestrator state of `main` (src/main.py lines 208-242):
the shared seen-id set, the accumulated list of accepted batches
(`all_data`, the collection later handed to `write_to_csv`), the loop flag
`more_data`, and the log of offsets for which a fetch was submitted. -/
structure MainState where
  seenIds : Finset Json
  allData : List (List (List Json))
  moreData : Bool
  requested : List Nat
  deriving DecidableEq

/-- The state of `main` on entry to the while loop. -/
def initState : MainState :=
  { seenIds := ∅, allData := [], moreData := true, requested := [] }

/-- Handling of one completed future in the drain loop (src/main.py lines
221-231): an exception from the fetch is logged and ignored; an exception
from `process_data` is logged but leaves the seen-id set as mutated; a
successful page appends its accepted rows when non-empty and clears
`more_data` when the accepted-row count is below `limit`. -/
def drainOne (limit : Nat) (st : MainState) (outcome : Except PyErr Json) : MainState :=
  match outcome with
  | .error _ => st
  | .ok result =>
    match process_data result st.seenIds with
    | .error (_, seen') => { st with seenIds := seen' }
    | .ok (data, seen') =>
      { st with
        seenIds := seen'
        allData := if data.isEmpty then st.allData else st.allData ++ [data]
        moreData := if data.length < limit then false else st.moreData }

/-- Draining one batch of completed futures.  `as_completed` yields the
futures in an arbitrary completion order; the list order of `outcomes` is
that completion order, so properties quantified over `outcomes` cover all
interleavings. -/
def drainBatch (limit : Nat) (st : MainState) (outcomes : List (Except PyErr Json)) : MainState :=
  outcomes.foldl (drainOne limit) st

/-- The while loop of `main` (src/main.py lines 217-231).  Since
`more_data` only changes inside a drain, futures are submitted singly but
drained exactly when ten have accumulated, and the loop exits with an
empty futures list (so the trailing drain of lines 233-240 is a no-op);
the loop is therefore a sequence of submit-10/drain rounds.  `fuel` bounds
the number of rounds to keep the model total; every theorem below either
holds for all fuel or fixes a concrete fuel. -/
def mainLoop (transport : Nat → HttpOutcome) (limit : Nat) :
    Nat → Nat → MainState → MainState
  | 0, _, st => st
  | fuel + 1, offset, st =>
    if st.moreData then
      let batchOffsets := (List.range 10).map (fun i => offset + i * limit)
      let st' := { st with requested := st.requested ++ batchOffsets }
      let st'' := drainBatch limit st' (batchOffsets.map (fetch_data transport))
      mainLoop transport limit fuel (offset + 10 * limit) st''
    else st

/-- The entry point `main` of src/main.py (lines 208-242), with its fixed
configuration: `limit = 1000`, starting offset 0, empty seen-id set.
(The name `main` itself is reserved by Lean for executables.) -/
def mainRun (transport : Nat → HttpOutcome) (fuel : Nat) : MainState :=
  mainLoop transport 1000 fuel 0 initState

/-- The per-run evolution of the seen-id set as successive page results are
fed through `process_data` (the drain order of `main`): on an exception the
set as mutated so far is kept and the run continues. -/
def foldSeen (pages : List Json) (seen : Finset Json) : Finset Json :=
  pages.foldl
    (fun s page =>
      match process_data page s with
      | .ok (_, s') => s'
      | .error (_, s') => s') seen

/-- Modelled from the spec (section 4.3 Deduplicating Aggregator), for
comparison with the code: given the normalized rows of one page, each
paired with its record identifier, drop a row whose identifier is already
in the set, otherwise insert the identifier and keep the row; return the
newly accepted rows in the given order. -/
def specAccept : List (Json × List Json) → Finset Json → List (List Json) × Finset Json
  | [], seen => ([], seen)
  | (rid, row) :: rest, seen =>
    if rid ∈ seen then specAccept rest seen
    else
      let (rows, seen') := specAccept rest (insert rid seen)
      (row :: rows, seen')

/-- Modelled from the spec (section 4.4 termination decision), for
comparison with the code: a just-drained batch signals termination when
some successfully processed page in it yields an accepted-row count (after
dedup) strictly below the limit; failed fetches and pages whose processing
raises are not consulted.  The seen-id set evolves through the batch
exactly as the aggregator evolves it. -/
def specStopsBatch (limit : Nat) : Finset Json → List (Except PyErr Json) → Bool
  | _, [] => false
  | seen, o :: rest =>
    match o with
    | .error _ => specStopsBatch limit seen rest
    | .ok result =>
      match process_data result seen with
      | .error (_, seen') => specStopsBatch limit seen' rest
      | .ok (data, seen') =>
        if data.length < limit then true else specStopsBatch limit seen' rest

/-- The standard response envelope `{data: {events: {results: records}}}`. -/
def envelope (records : List Json) : Json :=
  Json.mkObj [("data", Json.mkObj [("events", Json.mkObj [("results", Json.mkArr records)])])]

/-- A well-formed record with identifier `n`, epoch timestamp 0, and null
for every other attribute (null attribute values are fine for the
normalizer; only missing keys raise); both sub-entities are null, i.e.
absent in the GraphQL sense. -/
def mkRecord (n : Nat) : Json :=
  Json.mkObj (("id", Json.num n) :: ("timestamp", Json.num 0) :: ("name", Json.null) ::
    (scalarKeys.map (fun k => (k, Json.null)) ++ [("SERVICE", Json.null), ("API", Json.null)]))

/-- The row produced by normalizing `mkRecord n`. -/
def mkRecordRow (n : Nat) : List Json :=
  Json.num n :: Json.null :: Json.str "1970-01-01T00:00:00Z" :: List.replicate 42 Json.null

example : normalizeRow (mkRecord 1) = .ok (mkRecordRow 1) := by decide
example : process_data (envelope [mkRecord 1, mkRecord 1]) ∅ =
    .ok ([mkRecordRow 1], {Json.num 1}) := by decide

@[simp] theorem exceptBind_ok {ε α β : Type} (a : α) (f : α → Except ε β) :
    (Except.ok a >>= f) = f a := rfl

@[simp] theorem exceptBind_error {ε α β : Type} (e : ε) (f : α → Except ε β) :
    ((Except.error e : Except ε α) >>= f) = .error e := rfl

/-- The seen-id set carried by a `process_data` result, whether the page
succeeded or raised. -/
def resSeen : Except (PyErr × Finset Json) (List (List Json) × Finset Json) → Finset Json
  | .ok (_, s) => s
  | .error (_, s) => s

theorem processRecords_seen_mono (records : List Json) (S : Finset Json) :
    S ⊆ resSeen (processRecords records S) := by
  induction records generalizing S with
  | nil => simp [processRecords, resSeen]
  | cons r rest ih =>
    simp only [processRecords]
    cases hid : dictGetItem r "id" with
    | error e => simp [resSeen]
    | ok rid =>
      by_cases hmem : rid ∈ S
      · simpa [hmem] using ih S
      · simp only [if_neg hmem]
        cases hn : normalizeRow r with
        | error e => simp [resSeen]
        | ok row =>
          have h2 := ih (insert rid S)
          have hsub : S ⊆ resSeen (processRecords rest (insert rid S)) :=
            (Finset.subset_insert rid S).trans h2
          cases hp : processRecords rest (insert rid S) with
          | error es =>
            rw [hp] at hsub
            simpa [resSeen] using hsub
          | ok pr =>
            obtain ⟨rows, S'⟩ := pr
            rw [hp] at hsub
            simpa [resSeen] using hsub

theorem process_data_seen_mono (result : Json) (S : Finset Json) :
    S ⊆ resSeen (process_data result S) := by
  unfold process_data
  cases hex : extractRecords result with
  | error e => simp [resSeen]
  | ok records => exact processRecords_seen_mono records S

theorem normalizeRow_ok_head (record rid : Json) (row : List Json)
    (hid : dictGetItem record "id" = .ok rid)
    (h : normalizeRow record = .ok row) :
    ∃ tail, row = rid :: tail := by
  unfold normalizeRow at h
  cases hts : dictGetItem record "timestamp" with
  | error e => rw [hts] at h; simp at h
  | ok ts =>
    rw [hts] at h; simp only [exceptBind_ok] at h
    cases hms : ts.toMillis with
    | error e => rw [hms] at h; simp at h
    | ok ms =>
      rw [hms] at h; simp only [exceptBind_ok] at h
      cases hiso : utcIsoOfMillis ms with
      | error e => rw [hiso] at h; simp at h
      | ok iso =>
        rw [hiso] at h; simp only [exceptBind_ok] at h
        rw [hid] at h; simp only [exceptBind_ok] at h
        cases hname : dictGetItem record "name" with
        | error e => rw [hname] at h; simp at h
        | ok namev =>
          rw [hname] at h; simp only [exceptBind_ok] at h
          cases hsc : getItems record scalarKeys with
          | error e => rw [hsc] at h; simp at h
          | ok scalars =>
            rw [hsc] at h; simp only [exceptBind_ok] at h
            cases hsub : subEntityFields record with
            | error e => rw [hsub] at h; simp at h
            | ok subs =>
              rw [hsub] at h; simp only [exceptBind_ok, Except.ok.injEq] at h
              exact ⟨_, h.symm⟩

theorem processRecords_ok_spec (records : List Json) (S : Finset Json)
    (rows : List (List Json)) (S' : Finset Json)
    (h : processRecords records S = .ok (rows, S')) :
    (∀ row ∈ rows, ∃ v tail, row = v :: tail ∧ v ∈ S' ∧ v ∉ S) ∧
      (rows.map List.head?).Nodup := by
  induction records generalizing S rows with
  | nil =>
    simp only [processRecords, Except.ok.injEq, Prod.mk.injEq] at h
    obtain ⟨h1, _⟩ := h
    subst h1
    simp
  | cons r rest ih =>
    simp only [processRecords] at h
    cases hid : dictGetItem r "id" with
    | error e => rw [hid] at h; simp at h
    | ok rid =>
      rw [hid] at h
      dsimp only at h
      by_cases hmem : rid ∈ S
      · rw [if_pos hmem] at h
        exact ih S rows h
      · rw [if_neg hmem] at h
        cases hn : normalizeRow r with
        | error e => rw [hn] at h; simp at h
        | ok row0 =>
          rw [hn] at h
          dsimp only at h
          cases hp : processRecords rest (insert rid S) with
          | error es => rw [hp] at h; simp at h
          | ok pr =>
            obtain ⟨rows', S''⟩ := pr
            rw [hp] at h
            dsimp only at h
            simp only [Except.ok.injEq, Prod.mk.injEq] at h
            obtain ⟨hrows, hS⟩ := h
            subst hrows
            rw [hS] at hp
            obtain ⟨hall, hnd⟩ := ih (insert rid S) rows' hp
            have hsub : insert rid S ⊆ S' := by
              have := processRecords_seen_mono rest (insert rid S)
              rw [hp] at this
              simpa [resSeen] using this
            obtain ⟨tail, htail⟩ := normalizeRow_ok_head r rid row0 hid hn
            constructor
            · intro row hrow
              rcases List.mem_cons.mp hrow with hrow | hrow
              · subst hrow
                exact ⟨rid, tail, htail, hsub (Finset.mem_insert_self rid S), hmem⟩
              · obtain ⟨v, t, hvt, hvS, hvNot⟩ := hall row hrow
                exact ⟨v, t, hvt, hvS, fun hc => hvNot (Finset.mem_insert_of_mem hc)⟩
            · simp only [List.map_cons, List.nodup_cons]
              refine ⟨?_, hnd⟩
              intro hc
              rw [htail] at hc
              simp only [List.head?] at hc
              obtain ⟨row, hrowMem, hrowHead⟩ := List.mem_map.mp hc
              obtain ⟨v, t, hvt, hvS, hvNot⟩ := hall row hrowMem
              rw [hvt] at hrowHead
              simp only [List.head?, Option.some.injEq] at hrowHead
              exact hvNot (hrowHead ▸ Finset.mem_insert_self rid S)

theorem process_data_ok_spec (result : Json) (S : Finset Json)
    (rows : List (List Json)) (S' : Finset Json)
    (h : process_data result S = .ok (rows, S')) :
    (∀ row ∈ rows, ∃ v tail, row = v :: tail ∧ v ∈ S' ∧ v ∉ S) ∧
      (rows.map List.head?).Nodup := by
  unfold process_data at h
  cases hex : extractRecords result with
  | error e => rw [hex] at h; simp at h
  | ok records =>
    rw [hex] at h
    exact processRecords_ok_spec records S rows S' h

/-- The identifier column (the head of each row) of every row in the
accumulated output, batch by batch. -/
def outIds (st : MainState) : List (Option Json) :=
  st.allData.flatten.map List.head?

/-- Invariant of the orchestrator state: the identifier column of the
accumulated output has no duplicates, and every such identifier has been
recorded in the seen-id set. -/
def OutInv (st : MainState) : Prop :=
  (outIds st).Nodup ∧ ∀ h ∈ outIds st, ∃ v, h = some v ∧ v ∈ st.seenIds

theorem drainOne_inv (limit : Nat) (st : MainState) (o : Except PyErr Json)
    (hinv : OutInv st) : OutInv (drainOne limit st o) := by
  obtain ⟨hnd, hmem⟩ := hinv
  cases o with
  | error e => exact ⟨hnd, hmem⟩
  | ok result =>
    simp only [drainOne]
    cases hp : process_data result st.seenIds with
    | error es =>
      obtain ⟨e, seen'⟩ := es
      refine ⟨hnd, ?_⟩
      intro h hh
      obtain ⟨v, hv, hvS⟩ := hmem h hh
      have hmono := process_data_seen_mono result st.seenIds
      rw [hp] at hmono
      exact ⟨v, hv, hmono hvS⟩
    | ok pr =>
      obtain ⟨data, seen'⟩ := pr
      obtain ⟨hall, hndNew⟩ := process_data_ok_spec result st.seenIds data seen' hp
      have hmono : st.seenIds ⊆ seen' := by
        have := process_data_seen_mono result st.seenIds
        rw [hp] at this
        simpa [resSeen] using this
      by_cases hemp : data.isEmpty
      · refine ⟨by simpa [outIds, hemp] using hnd, ?_⟩
        intro h hh
        simp only [outIds, hemp] at hh
        obtain ⟨v, hv, hvS⟩ := hmem h hh
        exact ⟨v, hv, hmono hvS⟩
      · have houtIds : outIds { st with seenIds := seen', allData := if data.isEmpty then st.allData else st.allData ++ [data], moreData := if data.length < limit then false else st.moreData } = outIds st ++ data.map List.head? := by
          simp [outIds, hemp]
        constructor
        · rw [houtIds, List.nodup_append]
          refine ⟨hnd, hndNew, ?_⟩
          intro h hh1 hh2
          obtain ⟨v, hv, hvS⟩ := hmem h hh1
          obtain ⟨row, hrowMem, hrowHead⟩ := List.mem_map.mp hh2
          obtain ⟨w, t, hwt, hwS, hwNot⟩ := hall row hrowMem
          rw [hwt] at hrowHead
          simp only [List.head?] at hrowHead
          rw [hv] at hrowHead
          rw [Option.some.injEq] at hrowHead
          exact hwNot (hrowHead ▸ hvS)
        · intro h hh
          rw [houtIds] at hh
          rcases List.mem_append.mp hh with hh | hh
          · obtain ⟨v, hv, hvS⟩ := hmem h hh
            exact ⟨v, hv, hmono hvS⟩
          · obtain ⟨row, hrowMem, hrowHead⟩ := List.mem_map.mp hh
            obtain ⟨w, t, hwt, hwS, _⟩ := hall row hrowMem
            rw [hwt] at hrowHead
            simp only [List.head?] at hrowHead
            exact ⟨w, hrowHead.symm, hwS⟩

theorem drainBatch_inv (limit : Nat) (st : MainState)
    (outcomes : List (Except PyErr Json)) (hinv : OutInv st) :
    OutInv (drainBatch limit st outcomes) := by
  induction outcomes generalizing st with
  | nil => exact hinv
  | cons o rest ih =>
    simp only [drainBatch, List.foldl_cons]
    exact ih (drainOne limit st o) (drainOne_inv limit st o hinv)

theorem mainLoop_inv (transport : Nat → HttpOutcome) (limit : Nat)
    (fuel offset : Nat) (st : MainState) (hinv : OutInv st) :
    OutInv (mainLoop transport limit fuel offset st) := by
  induction fuel generalizing offset st with
  | zero => exact hinv
  | succ fuel ih =>
    simp only [mainLoop]
    by_cases hmd : st.moreData
    · rw [if_pos hmd]
      apply ih
      apply drainBatch_inv
      exact ⟨hinv.1, hinv.2⟩
    · rw [if_neg hmd]
      exact hinv

/-- C1: for every run (any transport behaviour, any number of rounds), each
record identifier appears in the final output collection handed to
`write_to_csv` (the accumulated `all_data` batches) at most once: the
identifier column (the head of each of the accumulated rows) is free of
duplicates, regardless of how many fetched pages contained a record with
that identifier. -/
theorem c1_output_id_at_most_once (transport : Nat → HttpOutcome) (fuel : Nat) :
    (((mainRun transport fuel).allData.flatten).map List.head?).Nodup := by
  have hinv : OutInv (mainRun transport fuel) := by
    apply mainLoop_inv
    constructor
    · simp [outIds, initState]
    · intro h hh
      simp [outIds, initState] at hh
  exact hinv.1

theorem processRecords_eq_specAccept (records : List Json) (pairs : List (Json × List Json))
    (hwf : List.Forall₂
      (fun r p => dictGetItem r "id" = .ok p.1 ∧ normalizeRow r = .ok p.2) records pairs)
    (S : Finset Json) :
    processRecords records S = .ok (specAccept pairs S) := by
  induction hwf generalizing S with
  | nil => simp [processRecords, specAccept]
  | cons hrp hrest ih =>
    rename_i r p records' pairs'
    obtain ⟨rid, row⟩ := p
    obtain ⟨hid, hnorm⟩ := hrp
    simp only [processRecords, hid]
    by_cases hmem : rid ∈ S
    · rw [if_pos hmem]
      rw [ih S]
      simp [specAccept, hmem]
    · rw [if_neg hmem]
      rw [hnorm]
      dsimp only
      rw [ih (insert rid S)]
      dsimp only
      simp only [specAccept, if_neg hmem]

/-- C2: on a page whose records all normalize (each record yields its
identifier and its normalized row), `process_data` behaves exactly as the
specified aggregator: a record whose identifier is already in `seen_ids`
is dropped, otherwise the identifier is inserted and the normalized row is
kept, and the newly accepted rows are returned in the order of the input
page. -/
theorem c2_process_data_eq_specAccept (result : Json) (S : Finset Json)
    (records : List Json) (pairs : List (Json × List Json))
    (hex : extractRecords result = .ok records)
    (hwf : List.Forall₂
      (fun r p => dictGetItem r "id" = .ok p.1 ∧ normalizeRow r = .ok p.2) records pairs) :
    process_data result S = .ok (specAccept pairs S) := by
  unfold process_data
  rw [hex]
  exact processRecords_eq_specAccept records pairs hwf S

/-- Witness for C2 at a concrete page: two records with the same identifier;
the aggregator keeps the first occurrence only, as the spec function does. -/
theorem c2_witness :
    process_data (envelope [mkRecord 1, mkRecord 1]) ∅ =
      .ok (specAccept [(Json.num 1, mkRecordRow 1), (Json.num 1, mkRecordRow 1)] ∅) :=
  c2_process_data_eq_specAccept (envelope [mkRecord 1, mkRecord 1]) ∅
    [mkRecord 1, mkRecord 1] [(Json.num 1, mkRecordRow 1), (Json.num 1, mkRecordRow 1)]
    (by decide)
    (List.Forall₂.cons (by constructor <;> decide)
      (List.Forall₂.cons (by constructor <;> decide) List.Forall₂.nil))

theorem processRecords_idem (records : List Json) (S : Finset Json)
    (rows : List (List Json)) (S' : Finset Json)
    (h : processRecords records S = .ok (rows, S')) :
    processRecords records S' = .ok ([], S') := by
  induction records generalizing S rows with
  | nil =>
    simp only [processRecords, Except.ok.injEq, Prod.mk.injEq] at h
    rw [← h.2]
    rfl
  | cons r rest ih =>
    simp only [processRecords] at h ⊢
    cases hid : dictGetItem r "id" with
    | error e => rw [hid] at h; simp at h
    | ok rid =>
      rw [hid] at h
      dsimp only at h
      by_cases hmem : rid ∈ S
      · rw [if_pos hmem] at h
        have hmono : S ⊆ S' := by
          have := processRecords_seen_mono rest S
          rw [h] at this
          simpa [resSeen] using this
        dsimp only
        rw [if_pos (hmono hmem)]
        exact ih S rows h
      · rw [if_neg hmem] at h
        cases hn : normalizeRow r with
        | error e => rw [hn] at h; simp at h
        | ok row0 =>
          rw [hn] at h
          dsimp only at h
          cases hp : processRecords rest (insert rid S) with
          | error es => rw [hp] at h; simp at h
          | ok pr =>
            obtain ⟨rows', S''⟩ := pr
            rw [hp] at h
            dsimp only at h
            simp only [Except.ok.injEq, Prod.mk.injEq] at h
            rw [h.2] at hp
            have hmono : insert rid S ⊆ S' := by
              have := processRecords_seen_mono rest (insert rid S)
              rw [hp] at this
              simpa [resSeen] using this
            dsimp only
            rw [if_pos (hmono (Finset.mem_insert_self rid S))]
            exact ih (insert rid S) rows' hp

/-- C3: dedup is idempotent.  If a call of `process_data` on page `result`
against `seen_ids` set `S` succeeds with accepted rows `rows` and updated
set `S'`, then a second call on the same page against `S'` succeeds and
accepts nothing, leaving the set unchanged — so across the two calls every
row of the page is returned at most once, and the second call returns no
row the first call accepted. -/
theorem c3_process_data_idem (result : Json) (S : Finset Json)
    (rows : List (List Json)) (S' : Finset Json)
    (h : process_data result S = .ok (rows, S')) :
    process_data result S' = .ok ([], S') := by
  unfold process_data at h ⊢
  cases hex : extractRecords result with
  | error e => rw [hex] at h; simp at h
  | ok records =>
    rw [hex] at h
    exact processRecords_idem records S rows S' h

/-- Witness for C3 at a concrete page fed twice: the second pass over the
same single-record page accepts nothing. -/
theorem c3_witness :
    process_data (envelope [mkRecord 1]) {Json.num 1} = .ok ([], {Json.num 1}) :=
  c3_process_data_idem (envelope [mkRecord 1]) ∅ [mkRecordRow 1] {Json.num 1} (by decide)

/-- C10: a response envelope (a JSON object) that lacks the data key — or
whose data object lacks the events key, or whose events object lacks the
results key — makes `process_data` return the empty list without raising,
leaving the seen-id set unchanged: each missing key is replaced by the
corresponding `.get` default. -/
theorem c10_missing_keys_empty (S : Finset Json) (fs : JsonFields)
    (h : lookupField fs "data" = none ∨
      (∃ gs, lookupField fs "data" = some (Json.obj gs) ∧ lookupField gs "events" = none) ∨
      (∃ gs hs, lookupField fs "data" = some (Json.obj gs) ∧
        lookupField gs "events" = some (Json.obj hs) ∧ lookupField hs "results" = none)) :
    process_data (Json.obj fs) S = .ok ([], S) := by
  unfold process_data extractRecords
  rcases h with h | ⟨gs, h1, h2⟩ | ⟨gs, hs, h1, h2, h3⟩
  · simp [pyGet, h, Json.mkObj, Json.mkArr, JsonFields.ofList, JsonList.ofList,
      JsonList.toList, lookupField, iterElems, processRecords]
  · simp [pyGet, h1, h2, Json.mkObj, Json.mkArr, JsonFields.ofList, JsonList.ofList,
      JsonList.toList, lookupField, iterElems, processRecords]
  · simp [pyGet, h1, h2, h3, Json.mkObj, Json.mkArr, JsonFields.ofList, JsonList.ofList,
      JsonList.toList, lookupField, iterElems, processRecords]

/-- Witness for C10: the empty envelope object against a non-empty seen-id
set. -/
theorem c10_witness :
    process_data (Json.obj .nil) {Json.num 9} = .ok ([], {Json.num 9}) :=
  c10_missing_keys_empty {Json.num 9} .nil (Or.inl rfl)

theorem drainBatch_moreData_iff (limit : Nat) (outcomes : List (Except PyErr Json))
    (st : MainState) :
    ((drainBatch limit st outcomes).moreData = false ↔
      (st.moreData = false ∨ specStopsBatch limit st.seenIds outcomes = true)) := by
  induction outcomes generalizing st with
  | nil => simp [drainBatch, specStopsBatch]
  | cons o rest ih =>
    simp only [drainBatch, List.foldl_cons] at ih ⊢
    cases o with
    | error e =>
      rw [ih (drainOne limit st (.error e))]
      simp [drainOne, specStopsBatch]
    | ok result =>
      rw [ih (drainOne limit st (.ok result))]
      simp only [drainOne, specStopsBatch]
      cases hp : process_data result st.seenIds with
      | error es =>
        obtain ⟨e, seen'⟩ := es
        dsimp only
        rfl
      | ok pr =>
        obtain ⟨data, seen'⟩ := pr
        dsimp only
        by_cases hlen : data.length < limit
        · simp [if_pos hlen]
        · simp [if_neg hlen]

/-- C5: starting a drain with the loop still live, the batch clears
`more_data` exactly when some successfully processed page of the batch
yields an accepted-row count — measured after deduplication, not raw page
size — strictly below `limit`; failed pages are never consulted.  In
particular a full-size page whose records all overlap previously seen
identifiers counts as short and triggers termination (see the witness). -/
theorem c5_stop_iff_short_page (limit : Nat) (st : MainState)
    (outcomes : List (Except PyErr Json)) (h : st.moreData = true) :
    ((drainBatch limit st outcomes).moreData = false ↔
      specStopsBatch limit st.seenIds outcomes = true) := by
  rw [drainBatch_moreData_iff]
  simp [h]

/-- A record carrying nothing but its identifier. -/
def idOnly (n : Nat) : Json := Json.mkObj [("id", Json.num n)]

/-- Witness for C5: with limit 2, a full-size page of two records whose
identifiers are both already seen dedups to zero accepted rows and stops
pagination even though the raw page is not short. -/
theorem c5_witness :
    (drainBatch 2
      { seenIds := {Json.num 1, Json.num 2}, allData := [], moreData := true, requested := [] }
      [.ok (envelope [idOnly 1, idOnly 2])]).moreData = false :=
  (c5_stop_iff_short_page 2
    { seenIds := {Json.num 1, Json.num 2}, allData := [], moreData := true, requested := [] }
    [.ok (envelope [idOnly 1, idOnly 2])] rfl).mpr (by decide)

/-- True when an `Except` computation succeeded. -/
def isOkE {ε α : Type} : Except ε α → Bool
  | .ok _ => true
  | .error _ => false

/-- A record is well-formed when its id lookup and its normalization both
succeed. -/
def recordWF (r : Json) : Bool :=
  isOkE (dictGetItem r "id") && isOkE (normalizeRow r)

/-- The identifiers of a list of records (records without a readable id
contribute nothing). -/
def idsOfRecords (records : List Json) : Finset Json :=
  (records.filterMap (fun r =>
    match dictGetItem r "id" with
    | .ok v => some v
    | .error _ => none)).toFinset

/-- A page is well-formed when its envelope unwraps and every record in it
is well-formed. -/
def pageWF (page : Json) : Bool :=
  match extractRecords page with
  | .error _ => false
  | .ok records => records.all recordWF

/-- The identifiers contained in a page. -/
def pageIds (page : Json) : Finset Json :=
  match extractRecords page with
  | .error _ => ∅
  | .ok records => idsOfRecords records

/-- Union of a list of finite sets. -/
def unionAll (l : List (Finset Json)) : Finset Json := l.foldr (· ∪ ·) ∅

theorem unionAll_perm (l1 l2 : List (Finset Json)) (h : l1.Perm l2) :
    unionAll l1 = unionAll l2 := by
  induction h with
  | nil => rfl
  | cons x _ ih => simp only [unionAll, List.foldr_cons] at ih ⊢; rw [ih]
  | swap x y l =>
    simp only [unionAll, List.foldr_cons]
    exact Finset.union_left_comm y x (unionAll l)
  | trans _ _ ih1 ih2 => exact ih1.trans ih2

theorem processRecords_wf (records : List Json) (S : Finset Json)
    (hwf : records.all recordWF = true) :
    ∃ rows, processRecords records S = .ok (rows, S ∪ idsOfRecords records) := by
  induction records generalizing S with
  | nil => exact ⟨[], by simp [processRecords, idsOfRecords]⟩
  | cons r rest ih =>
    simp only [List.all_cons, Bool.and_eq_true] at hwf
    obtain ⟨hr, hrest⟩ := hwf
    simp only [recordWF, Bool.and_eq_true] at hr
    obtain ⟨hidOk, hnOk⟩ := hr
    cases hid : dictGetItem r "id" with
    | error e => rw [hid] at hidOk; simp [isOkE] at hidOk
    | ok rid =>
      have hids : idsOfRecords (r :: rest) = insert rid (idsOfRecords rest) := by
        simp [idsOfRecords, List.filterMap_cons, hid]
      simp only [processRecords, hid]
      by_cases hmem : rid ∈ S
      · rw [if_pos hmem]
        obtain ⟨rows, hp⟩ := ih S hrest
        refine ⟨rows, ?_⟩
        rw [hp, hids]
        rw [Finset.union_insert, Finset.insert_eq_self.mpr (Finset.mem_union_left _ hmem)]
      · rw [if_neg hmem]
        cases hn : normalizeRow r with
        | error e => rw [hn] at hnOk; simp [isOkE] at hnOk
        | ok row0 =>
          obtain ⟨rows, hp⟩ := ih (insert rid S) hrest
          refine ⟨row0 :: rows, ?_⟩
          rw [hp, hids]
          dsimp only
          rw [Finset.insert_union, Finset.union_insert]

theorem process_data_wf (page : Json) (S : Finset Json) (hwf : pageWF page = true) :
    ∃ rows, process_data page S = .ok (rows, S ∪ pageIds page) := by
  unfold pageWF at hwf
  unfold process_data pageIds
  cases hex : extractRecords page with
  | error e => rw [hex] at hwf; simp at hwf
  | ok records =>
    rw [hex] at hwf
    exact processRecords_wf records S hwf

theorem foldSeen_wf (pages : List Json) (S : Finset Json)
    (hwf : ∀ p ∈ pages, pageWF p = true) :
    foldSeen pages S = S ∪ unionAll (pages.map pageIds) := by
  induction pages generalizing S with
  | nil => simp [foldSeen, unionAll]
  | cons p ps ih =>
    obtain ⟨rows, hp⟩ := process_data_wf p S (hwf p (List.mem_cons_self p ps))
    simp only [foldSeen, List.foldl_cons] at ih ⊢
    rw [hp]
    dsimp only
    rw [ih (S ∪ pageIds p) (fun q hq => hwf q (List.mem_cons_of_mem p hq))]
    simp only [List.map_cons, unionAll, List.foldr_cons]
    rw [Finset.union_assoc]

/-- C4 counterexample: the final seen-id set is not order-independent for
arbitrary page sequences.  Page P holds a malformed record with id 1
(missing every attribute except id and timestamp) followed by a good record
with id 2; page Q holds a good record with id 1.  Fed P then Q, the
malformed record raises before id 2 is reached (the page is abandoned), so
the run ends with set \x7b1\x7d.  Fed Q then P, id 1 is already seen, the
malformed record is skipped without being normalized, and id 2 is accepted:
the run ends with \x7b1, 2\x7d. -/
theorem c4_counterexample :
    List.Perm [envelope [Json.mkObj [("id", Json.num 1), ("timestamp", Json.num 0)], mkRecord 2],
        envelope [mkRecord 1]]
      [envelope [mkRecord 1],
        envelope [Json.mkObj [("id", Json.num 1), ("timestamp", Json.num 0)], mkRecord 2]] ∧
    foldSeen [envelope [Json.mkObj [("id", Json.num 1), ("timestamp", Json.num 0)], mkRecord 2],
        envelope [mkRecord 1]] ∅ ≠
      foldSeen [envelope [mkRecord 1],
        envelope [Json.mkObj [("id", Json.num 1), ("timestamp", Json.num 0)], mkRecord 2]] ∅ := by
  constructor
  · exact List.Perm.swap (envelope [mkRecord 1])
      (envelope [Json.mkObj [("id", Json.num 1), ("timestamp", Json.num 0)], mkRecord 2]) []
  · decide

/-- C4 amended: for page sequences in which every page unwraps and every
record normalizes (no malformed records), the final seen-id set after
folding `process_data` from the empty set is the same for every permutation
of the page order. -/
theorem c4_amended_order_independence (pages1 pages2 : List Json)
    (hperm : pages1.Perm pages2) (hwf : ∀ p ∈ pages1, pageWF p = true) :
    foldSeen pages1 ∅ = foldSeen pages2 ∅ := by
  rw [foldSeen_wf pages1 ∅ hwf,
    foldSeen_wf pages2 ∅ (fun p hp => hwf p (hperm.mem_iff.mpr hp))]
  rw [unionAll_perm _ _ (hperm.map pageIds)]

/-- Witness for the amended C4: two well-formed single-record pages produce
the same final seen-id set in either order. -/
theorem c4_witness :
    foldSeen [envelope [mkRecord 5], envelope [mkRecord 6]] ∅ =
      foldSeen [envelope [mkRecord 6], envelope [mkRecord 5]] ∅ :=
  c4_amended_order_independence
    [envelope [mkRecord 5], envelope [mkRecord 6]]
    [envelope [mkRecord 6], envelope [mkRecord 5]]
    (List.Perm.swap (envelope [mkRecord 6]) (envelope [mkRecord 5]) [])
    (by decide)

/-- C7 counterexample: a page holding a good record (id 1), then a record
missing the required name attribute (id 2, timestamp present), then another
good record (id 3).  The claim says the malformed record is skipped while
the remaining records of the page are still accepted; the code instead
raises out of `process_data`, so the page yields no accepted rows at all —
in particular the row of the good record with id 3 is not accepted — while
the id of the record accepted before the failure stays in the (in-place
mutated) seen-id set. -/
theorem c7_counterexample :
    process_data
      (envelope [mkRecord 1, Json.mkObj [("id", Json.num 2), ("timestamp", Json.num 0)],
        mkRecord 3]) ∅ =
      .error (.keyError "name", {Json.num 1}) := by
  decide

/-- C7 amended: a normalization failure is recovered per-page, not
per-record: when `process_data` raises on a page, the orchestrator's
per-future handler logs the error, the page contributes zero accepted rows
(`all_data` is untouched), the termination flag is untouched so the run
continues, and the seen-id set keeps the insertions made before the
failing record. -/
theorem c7_amended_page_level_recovery (limit : Nat) (st : MainState) (page : Json)
    (e : PyErr) (S' : Finset Json)
    (h : process_data page st.seenIds = .error (e, S')) :
    drainOne limit st (.ok page) = { st with seenIds := S' } := by
  simp only [drainOne, h]

/-- Witness for the amended C7 at the counterexample page: the drain step
keeps `all_data` and `more_data` unchanged and only records the partially
grown seen-id set. -/
theorem c7_witness :
    drainOne 1000 initState
      (.ok (envelope [mkRecord 1, Json.mkObj [("id", Json.num 2), ("timestamp", Json.num 0)],
        mkRecord 3])) =
      { initState with seenIds := {Json.num 1} } :=
  c7_amended_page_level_recovery 1000 initState
    (envelope [mkRecord 1, Json.mkObj [("id", Json.num 2), ("timestamp", Json.num 0)],
      mkRecord 3])
    (.keyError "name") {Json.num 1} (by decide)

/-- A fetch outcome the code treats as a failure: a transport error, a 4xx
or 5xx status (the only statuses `raise_for_status` raises for), or a body
that is not valid JSON. -/
def fetchFails : HttpOutcome → Prop
  | .netErr => True
  | .resp status body => (400 ≤ status ∧ status < 600) ∨ body = none

instance : DecidablePred fetchFails := fun o =>
  match o with
  | .netErr => .isTrue trivial
  | .resp _ _ => inferInstanceAs (Decidable (_ ∨ _))

/-- C9 counterexample: a non-success (non-2xx) HTTP status is not always a
Fetch Failure.  `raise_for_status` raises only for statuses in [400, 600),
so a 300 response with a parseable JSON body is returned as a success; the
orchestrator then processes it like any page, and — the body here carrying
no results — its accepted-row count 0 < limit clears `more_data`: far from
being excluded from the termination decision, the non-2xx page triggers
termination. -/
theorem c9_counterexample :
    fetch_data (fun _ => .resp 300 (some (Json.obj .nil))) 0 = .ok (Json.obj .nil) ∧
    (drainOne 1000 initState
      (fetch_data (fun _ => .resp 300 (some (Json.obj .nil))) 0)).moreData = false := by
  constructor
  · decide
  · decide

/-- C9 amended: a fetch ending in a network error, a 4xx or 5xx status, or
an unparseable body raises; the orchestrator's per-future handler logs it
and leaves the state untouched: the page contributes zero accepted rows,
the run is not aborted, and the failed page does not feed the termination
decision (`more_data` is unchanged). -/
theorem c9_amended_fetch_failure_recovered (limit : Nat) (st : MainState)
    (transport : Nat → HttpOutcome) (offset : Nat)
    (h : fetchFails (transport offset)) :
    drainOne limit st (fetch_data transport offset) = st := by
  unfold fetch_data
  cases ht : transport offset with
  | netErr => rfl
  | resp status body =>
    rw [ht] at h
    dsimp only
    rcases h with ⟨h1, h2⟩ | hb
    · rw [if_pos (show 400 ≤ status ∧ status < 600 from ⟨h1, h2⟩)]
      rfl
    · subst hb
      by_cases hs : 400 ≤ status ∧ status < 600
      · rw [if_pos hs]; rfl
      · rw [if_neg hs]; rfl

/-- Witness for the amended C9: a 500 response leaves the orchestrator
state exactly as it was. -/
theorem c9_witness :
    drainOne 1000 initState (fetch_data (fun _ => .resp 500 (some (Json.obj .nil))) 0) =
      initState :=
  c9_amended_fetch_failure_recovered 1000 initState
    (fun _ => .resp 500 (some (Json.obj .nil))) 0 (Or.inl (by constructor <;> decide))

theorem drainOne_requested (limit : Nat) (st : MainState) (o : Except PyErr Json) :
    (drainOne limit st o).requested = st.requested := by
  cases o with
  | error e => rfl
  | ok result =>
    simp only [drainOne]
    cases hp : process_data result st.seenIds with
    | error es => obtain ⟨e, seen'⟩ := es; rfl
    | ok pr => obtain ⟨data, seen'⟩ := pr; rfl

theorem drainBatch_requested (limit : Nat) (st : MainState)
    (outcomes : List (Except PyErr Json)) :
    (drainBatch limit st outcomes).requested = st.requested := by
  induction outcomes generalizing st with
  | nil => rfl
  | cons o rest ih =>
    simp only [drainBatch, List.foldl_cons] at ih ⊢
    rw [ih (drainOne limit st o), drainOne_requested]

theorem mainLoop_stopped (transport : Nat → HttpOutcome) (limit fuel offset : Nat)
    (st : MainState) (h : st.moreData = false) :
    mainLoop transport limit fuel offset st = st := by
  cases fuel with
  | zero => rfl
  | succ f => simp [mainLoop, h]

theorem drainBatch_append (limit : Nat) (st : MainState)
    (l1 l2 : List (Except PyErr Json)) :
    drainBatch limit st (l1 ++ l2) = drainBatch limit (drainBatch limit st l1) l2 := by
  simp [drainBatch, List.foldl_append]

theorem process_data_empty_envelope (seen : Finset Json) :
    process_data (envelope []) seen = .ok ([], seen) := rfl

theorem drainOne_empty_envelope (limit : Nat) (st : MainState) (h : 0 < limit) :
    (drainOne limit st (.ok (envelope []))).moreData = false := by
  simp only [drainOne, process_data_empty_envelope]
  simp [h]

/-- A page of `count` well-formed records with distinct consecutive
identifiers starting at `start`. -/
def mkPage (start count : Nat) : Json :=
  envelope ((List.range count).map (fun i => mkRecord (start + i)))

/-- The C6 scenario transport: successive pages of sizes 1000, 1000 and 400
at offsets 0, 1000 and 2000, with globally distinct record identifiers, and
empty pages beyond; every response is a 200 with a parseable body. -/
def c6transport (offset : Nat) : HttpOutcome :=
  if offset = 0 then .resp 200 (some (mkPage 0 1000))
  else if offset = 1000 then .resp 200 (some (mkPage 1000 1000))
  else if offset = 2000 then .resp 200 (some (mkPage 2000 400))
  else .resp 200 (some (envelope []))

theorem jsonList_toList_ofList (l : List Json) : (JsonList.ofList l).toList = l := by
  induction l with
  | nil => rfl
  | cons x xs ih => simp [JsonList.ofList, JsonList.toList, ih]

theorem extractRecords_envelope (records : List Json) :
    extractRecords (envelope records) = .ok records := by
  simp [extractRecords, envelope, Json.mkObj, Json.mkArr, JsonFields.ofList, pyGet,
    lookupField, iterElems, jsonList_toList_ofList]

/-- Sanity check of the C6 scenario: the three non-empty pages have raw
sizes 1000, 1000 and 400. -/
theorem c6_scenario_sizes :
    (extractRecords (mkPage 0 1000)).map List.length = .ok 1000 ∧
    (extractRecords (mkPage 1000 1000)).map List.length = .ok 1000 ∧
    (extractRecords (mkPage 2000 400)).map List.length = .ok 400 := by
  refine ⟨?_, ?_, ?_⟩ <;> simp [mkPage, extractRecords_envelope, Except.map]

theorem c6_batch_moreData (st : MainState) :
    (drainBatch 1000 st
      (((List.range 10).map (fun i => 0 + i * 1000)).map (fetch_data c6transport))).moreData =
      false := by
  have hoff : (List.range 10).map (fun i => 0 + i * 1000) =
      [0, 1000, 2000, 3000, 4000, 5000, 6000, 7000, 8000] ++ [9000] := by decide
  rw [hoff, List.map_append, drainBatch_append]
  have hfetch : (([9000] : List Nat)).map (fetch_data c6transport) = [.ok (envelope [])] := by
    decide
  rw [hfetch]
  exact drainOne_empty_envelope 1000 _ (by decide)

/-- C6 counterexample: with pages of sizes 1000, 1000, 400 (all record
identifiers distinct) and limit 1000, the claim says the run never issues
a 4th fetch request; but the orchestrator submits a full batch of ten
fetches (offsets 0 through 9000) before draining anything, so already in
the first round the 4th request (offset 3000) — and six more — are
issued. -/
theorem c6_counterexample :
    (mainRun c6transport 1).requested =
      [0, 1000, 2000, 3000, 4000, 5000, 6000, 7000, 8000, 9000] := by
  show (mainLoop c6transport 1000 1 0 initState).requested = _
  simp only [mainLoop, initState]
  rw [if_pos trivial, drainBatch_requested]
  decide

/-- C6 amended: in the same scenario the run does terminate after the
first drained batch — the 400-row page (and the empty pages beyond it)
clear `more_data` — but only after the full first batch of ten requests at
offsets 0 through 9000 has been issued: for any fuel, no 11th request is
ever submitted. -/
theorem c6_amended_stops_after_first_batch (fuel : Nat) (h : 1 ≤ fuel) :
    (mainRun c6transport fuel).requested =
      [0, 1000, 2000, 3000, 4000, 5000, 6000, 7000, 8000, 9000] := by
  obtain ⟨f, rfl⟩ : ∃ f, fuel = f + 1 := ⟨fuel - 1, by omega⟩
  show (mainLoop c6transport 1000 (f + 1) 0 initState).requested = _
  simp only [mainLoop, initState]
  rw [if_pos trivial]
  rw [mainLoop_stopped c6transport 1000 f (0 + 10 * 1000) _ (c6_batch_moreData _)]
  rw [drainBatch_requested]
  decide

/-- Witness for the amended C6 at fuel 2: a second round would have been
allowed, yet only the first ten offsets were ever requested. -/
theorem c6_witness :
    (mainRun c6transport 2).requested =
      [0, 1000, 2000, 3000, 4000, 5000, 6000, 7000, 8000, 9000] :=
  c6_amended_stops_after_first_batch 2 (by decide)

/-- True when the computation succeeded with a non-null value. -/
def nonNullOk : Except PyErr Json → Bool
  | .ok Json.null => false
  | .ok _ => true
  | .error _ => false

/-- True when the computation succeeded with a Python-falsy-or-not value
that is not truthy (the code's notion of an absent sub-entity). -/
def falsyOk : Except PyErr Json → Bool
  | .ok v => !v.isTruthy
  | .error _ => false

theorem nonNullOk_spec (e : Except PyErr Json) (h : nonNullOk e = true) :
    ∃ v, e = .ok v ∧ v ≠ Json.null := by
  cases e with
  | error e2 => simp [nonNullOk] at h
  | ok v =>
    refine ⟨v, rfl, ?_⟩
    intro hv
    subst hv
    simp [nonNullOk] at h

theorem falsyOk_spec (e : Except PyErr Json) (h : falsyOk e = true) :
    ∃ v, e = .ok v ∧ v.isTruthy = false := by
  cases e with
  | error e2 => simp [falsyOk] at h
  | ok v => exact ⟨v, rfl, by simpa [falsyOk] using h⟩

theorem getItems_forall (record : Json) (keys : List String)
    (h : ∀ k ∈ keys, nonNullOk (dictGetItem record k) = true) :
    ∃ vs, getItems record keys = .ok vs ∧ vs.length = keys.length ∧
      ∀ v ∈ vs, v ≠ Json.null := by
  induction keys with
  | nil => exact ⟨[], rfl, rfl, by simp⟩
  | cons k ks ih =>
    obtain ⟨v, hv, hvn⟩ := nonNullOk_spec _ (h k (List.mem_cons_self k ks))
    obtain ⟨vs, hvs, hlen, hall⟩ := ih (fun k2 hk2 => h k2 (List.mem_cons_of_mem k hk2))
    refine ⟨v :: vs, ?_, by simp [hlen], ?_⟩
    · simp [getItems, hv, hvs]
    · intro w hw
      rcases List.mem_cons.mp hw with hw | hw
      · exact hw ▸ hvn
      · exact hall w hw

theorem subEntityFields_absent (record sv av : Json)
    (hs : dictGetItem record "SERVICE" = .ok sv) (hsf : sv.isTruthy = false)
    (ha : dictGetItem record "API" = .ok av) (haf : av.isTruthy = false) :
    subEntityFields record = .ok (List.replicate 8 Json.null) := by
  simp [subEntityFields, svcField, apiField, hs, ha, hsf, haf, List.replicate]

/-- C8 amended: for a record whose two optional sub-entities are both
absent (present as falsy values, e.g. null) and whose required top-level
fields are all present with non-null values (and a numeric timestamp in
range), the normalized 45-column row is null in exactly the EIGHT
sub-entity-derived fields — SERVICE id and name, plus the six API fields —
and non-null in all 37 other fields.  (The claim counts 6 such fields;
the code derives 8 row entries from the sub-entities.) -/
theorem c8_amended_eight_subentity_nulls (record : Json) (t : Int) (iso : String)
    (hts : dictGetItem record "timestamp" = .ok (Json.num t))
    (hiso : utcIsoOfMillis t = .ok iso)
    (hid : nonNullOk (dictGetItem record "id") = true)
    (hname : nonNullOk (dictGetItem record "name") = true)
    (hscalars : ∀ k ∈ scalarKeys, nonNullOk (dictGetItem record k) = true)
    (hsvc : falsyOk (dictGetItem record "SERVICE") = true)
    (hapi : falsyOk (dictGetItem record "API") = true) :
    ∃ idv namev vs,
      normalizeRow record =
        .ok (idv :: namev :: Json.str (iso ++ "Z") :: (vs ++ List.replicate 8 Json.null)) ∧
      idv ≠ Json.null ∧ namev ≠ Json.null ∧ vs.length = 34 ∧ ∀ v ∈ vs, v ≠ Json.null := by
  obtain ⟨idv, hidv, hidn⟩ := nonNullOk_spec _ hid
  obtain ⟨namev, hnv, hnn⟩ := nonNullOk_spec _ hname
  obtain ⟨vs, hvs, hlen, hall⟩ := getItems_forall record scalarKeys hscalars
  obtain ⟨sv, hsv, hsvf⟩ := falsyOk_spec _ hsvc
  obtain ⟨av, hav, havf⟩ := falsyOk_spec _ hapi
  refine ⟨idv, namev, vs, ?_, hidn, hnn, by rw [hlen]; rfl, hall⟩
  unfold normalizeRow
  rw [hts]
  simp only [exceptBind_ok, Json.toMillis]
  rw [hiso]
  simp only [exceptBind_ok]
  rw [hidv]
  simp only [exceptBind_ok]
  rw [hnv]
  simp only [exceptBind_ok]
  rw [hvs]
  simp only [exceptBind_ok]
  rw [subEntityFields_absent record sv av hsv hsvf hav havf]
  simp only [exceptBind_ok]

/-- A record with both sub-entities absent (null) and every scalar
attribute present and non-null. -/
def c8rec : Json :=
  Json.mkObj (("id", Json.num 1) :: ("timestamp", Json.num 0) :: ("name", Json.str "n") ::
    (scalarKeys.map (fun k => (k, Json.str "v")) ++
      [("SERVICE", Json.null), ("API", Json.null)]))

/-- C8 counterexample: normalizing a record with both sub-entities absent
and all scalars non-null yields a row whose null entries number 8 (the
eight trailing sub-entity-derived fields), not 6 as the claim states. -/
theorem c8_counterexample :
    (normalizeRow c8rec).map
        (fun row => ((row.filter (fun v => v = Json.null)).length, row.drop 37)) =
      .ok (8, List.replicate 8 Json.null) ∧ (8 : Nat) ≠ 6 := by
  constructor
  · decide
  · decide

/-- Witness for the amended C8 at the concrete record `c8rec`. -/
theorem c8_witness :
    ∃ idv namev vs,
      normalizeRow c8rec =
        .ok (idv :: namev :: Json.str ("1970-01-01T00:00:00" ++ "Z") ::
          (vs ++ List.replicate 8 Json.null)) ∧
      idv ≠ Json.null ∧ namev ≠ Json.null ∧ vs.length = 34 ∧ ∀ v ∈ vs, v ≠ Json.null :=
  c8_amended_eight_subentity_nulls c8rec 0 "1970-01-01T00:00:00"
    (by decide) (by decide) (by decide) (by decide) (by decide) (by decide) (by decide)
